import Mathlib

/-!
Verification of the mcp-vibekanban server against its specification.

The development shallowly embeds the pure decision logic of the TypeScript
source files:

* `src/api/client.ts` — executor-name normalization (`buildExecutorProfile`,
  `startWorkspaceSession`) and the local filtering/limiting in `listTasks`;
* `src/resources.ts` — `parseResourceUri` and the `SubscriptionManager`
  (subscribe / unsubscribe / stopPolling / checkForChanges);
* `src/tasks.ts` — `mapStatus` and the decision structure of
  `pollExecutionProcess`;
* the `send_message` tool handler — the busy-signal heuristic and the
  auto-queue fallback.

JavaScript strings are modelled as Lean `String` / `List Char`; the ASCII
fragment of `String.prototype.toUpperCase` is modelled by `Char.toUpper`,
and `String.prototype.trim` by dropping whitespace characters from both
ends.  Network effects are modelled by passing the outcome of each remote
call explicitly (`Option` / `Except`): `none` / `.error` is a thrown
exception, `some` / `.ok` a successful response.
-/

namespace VibeKanban

-- ============================================================
-- Strings: whitespace, trim, dash replacement (client.ts)
-- ============================================================

/-- Whitespace predicate used by the model of `String.prototype.trim`. -/
def isWS (c : Char) : Bool := c.isWhitespace

/-- Model of `.replace(hyphen, underscore)` applied to a single character. -/
def replDash (c : Char) : Char := if c = '-' then '_' else c

/-- Drop leading whitespace (left half of `trim`). -/
def trimLeftL (l : List Char) : List Char := l.dropWhile isWS

/-- Drop trailing whitespace (right half of `trim`). -/
def trimRightL (l : List Char) : List Char := (l.reverse.dropWhile isWS).reverse

/-- Model of `String.prototype.trim`. -/
def jsTrimL (l : List Char) : List Char := trimRightL (trimLeftL l)

/-- From `src/api/client.ts`, `buildExecutorProfile` and
`startWorkspaceSession`:
`executor.trim().replace(hyphens, underscores).toUpperCase()`. -/
def normalizeExecutor (s : String) : String :=
  ⟨((jsTrimL s.toList).map replDash).map Char.toUpper⟩

/-- From `src/api/types.ts`: `ExecutorProfileId`. -/
structure ExecutorProfileId where
  executor : String
  variant : Option String
deriving DecidableEq

/-- From `src/api/client.ts`, `VibeClient.buildExecutorProfile`. -/
def buildExecutorProfile (executor : String) (variant : Option String) :
    ExecutorProfileId :=
  { executor := normalizeExecutor executor, variant := variant }

-- ============================================================
-- Execution process statuses and mapStatus (tasks.ts)
-- ============================================================

/-- From `src/api/types.ts`:
`type ExecutionProcessStatus = running | completed | failed | killed`. -/
inductive ExecutionProcessStatus where
  | running
  | completed
  | failed
  | killed
deriving DecidableEq

/-- The four MCP task statuses produced by `mapStatus` in `src/tasks.ts`. -/
inductive McpTaskStatus where
  | working
  | completed
  | failed
  | cancelled
deriving DecidableEq

/-- From `src/tasks.ts`, `mapStatus`.  The source `switch` has a
`default: working` arm, which is unreachable because
`ExecutionProcessStatus` has exactly the four listed values. -/
def mapStatus : ExecutionProcessStatus → McpTaskStatus
  | .running => .working
  | .completed => .completed
  | .failed => .failed
  | .killed => .cancelled

-- ============================================================
-- URI parsing (resources.ts, parseResourceUri)
-- ============================================================

/-- The tagged union returned by `parseResourceUri` in `src/resources.ts`. -/
inductive ParsedUri where
  | tasks
  | context
  | task (taskId : String)
  | session (sessionId : String)
  | queue (sessionId : String)
deriving DecidableEq

/-- The regex character class `[0-9a-f-]` under the case-insensitive flag. -/
def isHexDashChar (c : Char) : Bool :=
  ('0' ≤ c && c ≤ '9') || ('a' ≤ c && c ≤ 'f') || ('A' ≤ c && c ≤ 'F') || c = '-'

/-- Case-insensitive character comparison (the regex `i` flag, ASCII). -/
def ciCharEq (a b : Char) : Bool := Char.toLower a = Char.toLower b

/-- Strip a literal pattern from the front of the input, case-insensitively;
`none` when the input does not start with the pattern. -/
def ciStrip : List Char → List Char → Option (List Char)
  | [], s => some s
  | _ :: _, [] => none
  | p :: ps, c :: cs => if ciCharEq p c then ciStrip ps cs else none

/-- Strip a literal pattern from the end of the input, case-insensitively. -/
def ciStripSuffix (pat s : List Char) : Option (List Char) :=
  (ciStrip pat.reverse s.reverse).map List.reverse

/-- From `src/resources.ts`, `parseResourceUri`.  The source tries, in
order: exact matches for `vibe://tasks` and `vibe://context`, then the
anchored case-insensitive regexes for task, queue and session URIs whose id
group is `[0-9a-f-]+`.  The queue and session patterns share the
`vibe://sessions/` literal; since `/` is not in the id class, the two are
disjoint and the fused match below is equivalent to the ordered regex
attempts of the source. -/
def parseResourceUri (uri : String) : Option ParsedUri :=
  if uri = "vibe://tasks" then some .tasks
  else if uri = "vibe://context" then some .context
  else
    match ciStrip "vibe://tasks/".toList uri.toList with
    | some rest =>
        if rest ≠ [] ∧ rest.all isHexDashChar then some (.task ⟨rest⟩) else none
    | none =>
      match ciStrip "vibe://sessions/".toList uri.toList with
      | some rest =>
        match ciStripSuffix "/queue".toList rest with
        | some idPart =>
            if idPart ≠ [] ∧ idPart.all isHexDashChar then some (.queue ⟨idPart⟩)
            else none
        | none =>
            if rest ≠ [] ∧ rest.all isHexDashChar then some (.session ⟨rest⟩)
            else none
      | none => none

-- ============================================================
-- Subscription manager (resources.ts, SubscriptionManager)
-- ============================================================

/-- State of `SubscriptionManager` in `src/resources.ts`: the JS `Set` of
subscribed URIs (insertion order, no duplicates), the `Map` of last content
hashes, and whether the poll interval timer is currently set. -/
structure SubscriptionManager where
  subscriptions : List String
  lastHashes : String → Option String
  pollTimer : Bool

/-- A freshly constructed manager: empty set, empty map, no timer. -/
def initialManager : SubscriptionManager :=
  { subscriptions := [], lastHashes := fun _ => none, pollTimer := false }

/-- From `src/resources.ts`, `SubscriptionManager.subscribe`:
`subscriptions.add(uri); if (!pollTimer) startPolling()`. -/
def subscribe (s : SubscriptionManager) (uri : String) : SubscriptionManager :=
  { s with
    subscriptions :=
      if uri ∈ s.subscriptions then s.subscriptions else s.subscriptions ++ [uri],
    pollTimer := if s.pollTimer then s.pollTimer else true }

/-- From `src/resources.ts`, `SubscriptionManager.unsubscribe`:
`subscriptions.delete(uri); lastHashes.delete(uri);
if (subscriptions.size === 0) stopPolling()`. -/
def unsubscribe (s : SubscriptionManager) (uri : String) : SubscriptionManager :=
  let subs := s.subscriptions.filter (fun u => u ≠ uri)
  { subscriptions := subs,
    lastHashes := fun k => if k = uri then none else s.lastHashes k,
    pollTimer := if subs.isEmpty then false else s.pollTimer }

/-- From `src/resources.ts`, `SubscriptionManager.stopPolling`: clears the
interval timer unconditionally, leaving the rest of the state alone. -/
def stopPolling (s : SubscriptionManager) : SubscriptionManager :=
  { s with pollTimer := false }

/-- Environment of one poll tick: the outcome of `fetchResourceData` plus
`JSON.stringify` for each URI (`none` models a thrown fetch error), and the
`sha256 ... hex` digest function. -/
structure PollEnv where
  fetchJson : String → Option String
  sha256 : String → String

/-- One iteration of the `for (const uri of subscriptions)` loop in
`SubscriptionManager.checkForChanges`: parse the URI (skip when null),
fetch and hash (skip when the fetch throws), emit a notification when a
previous hash exists (JS truthiness: the empty string does not count) and
differs, and store the new hash. -/
def stepUri (env : PollEnv) (acc : (String → Option String) × List String)
    (uri : String) : (String → Option String) × List String :=
  match parseResourceUri uri with
  | none => acc
  | some _ =>
    match env.fetchJson uri with
    | none => acc
    | some json =>
      let h := env.sha256 json
      let notifs :=
        match acc.1 uri with
        | some old => if old ≠ "" ∧ old ≠ h then acc.2 ++ [uri] else acc.2
        | none => acc.2
      (fun k => if k = uri then some h else acc.1 k, notifs)

/-- The stored hash for `uri` after one `stepUri` pass whose map was `m`:
unchanged on a parse or fetch failure, else the digest of the fetched
JSON. -/
def hashAfter (env : PollEnv) (m : String → Option String) (uri : String) :
    Option String :=
  match parseResourceUri uri with
  | none => m uri
  | some _ =>
    match env.fetchJson uri with
    | none => m uri
    | some json => some (env.sha256 json)

/-- Whether one `stepUri` pass whose map was `m` emits a notification for
`uri`: the URI parses, the fetch succeeds, and a stored truthy hash exists
that differs from the new digest. -/
def emits (env : PollEnv) (m : String → Option String) (uri : String) : Bool :=
  match parseResourceUri uri with
  | none => false
  | some _ =>
    match env.fetchJson uri with
    | none => false
    | some json =>
      match m uri with
      | some old => if old ≠ "" ∧ old ≠ env.sha256 json then true else false
      | none => false

/-- From `src/resources.ts`, `SubscriptionManager.checkForChanges`: fold
`stepUri` over the subscription set, returning the updated manager and the
list of URIs for which `sendResourceUpdated` was emitted this tick. -/
def checkForChanges (env : PollEnv) (s : SubscriptionManager) :
    SubscriptionManager × List String :=
  let r := s.subscriptions.foldl (stepUri env) (s.lastHashes, [])
  ({ s with lastHashes := r.1 }, r.2)

/-- States reachable through the full public surface of the manager,
including the shutdown-time `stopPolling`. -/
inductive ReachableFull : SubscriptionManager → Prop where
  | init : ReachableFull initialManager
  | subscribeStep (s : SubscriptionManager) (u : String) :
      ReachableFull s → ReachableFull (subscribe s u)
  | unsubscribeStep (s : SubscriptionManager) (u : String) :
      ReachableFull s → ReachableFull (unsubscribe s u)
  | pollStep (s : SubscriptionManager) (env : PollEnv) :
      ReachableFull s → ReachableFull (checkForChanges env s).1
  | stopStep (s : SubscriptionManager) :
      ReachableFull s → ReachableFull (stopPolling s)

/-- States reachable without the shutdown-time `stopPolling`. -/
inductive ReachableOps : SubscriptionManager → Prop where
  | init : ReachableOps initialManager
  | subscribeStep (s : SubscriptionManager) (u : String) :
      ReachableOps s → ReachableOps (subscribe s u)
  | unsubscribeStep (s : SubscriptionManager) (u : String) :
      ReachableOps s → ReachableOps (unsubscribe s u)
  | pollStep (s : SubscriptionManager) (env : PollEnv) :
      ReachableOps s → ReachableOps (checkForChanges env s).1

/-- Witness environment: every fetch succeeds with the same payload. -/
def okEnv : PollEnv :=
  { fetchJson := fun _ => some "data", sha256 := fun x => String.append "h" x }

/-- Witness environment: fetching `vibe://context` succeeds, every other
fetch throws. -/
def failEnv : PollEnv :=
  { fetchJson := fun u => if u = "vibe://context" then some "data" else none,
    sha256 := fun x => String.append "h" x }

-- ============================================================
-- Execution tracker (tasks.ts, pollExecutionProcess)
-- ============================================================

/-- The fields of `ExecutionProcess` (src/api/types.ts) that the tracker
poll loop reads: `id`, `status` and `exit_code`. -/
structure ExecProcess where
  id : String
  status : ExecutionProcessStatus
  exit_code : Option Int
deriving DecidableEq

/-- Environment of one tracker iteration: the cancellation signal at the
top of the iteration, and the outcomes of `getExecutionProcess` and
`listExecutionProcesses` (`none` models a thrown error). -/
structure IterEnv where
  aborted : Bool
  fetchRes : Option ExecProcess
  listRes : Option (List ExecProcess)
deriving DecidableEq

/-- Result of the fetch-with-fallback block of one iteration. -/
inductive IterFetch where
  | proceed (p : ExecProcess)
  | notFound
  | transient
deriving DecidableEq

/-- From `src/tasks.ts`, `pollExecutionProcess` lines 104-116: try
`getExecutionProcess`; on failure list the processes of the session and
find by id; if the list call itself throws, the outer catch logs and the
loop continues (`transient`); if the list succeeds but the id is absent,
the tracking record is marked failed (`notFound`). -/
def resolveProcess (pid : String) (fetchRes : Option ExecProcess)
    (listRes : Option (List ExecProcess)) : IterFetch :=
  match fetchRes with
  | some p => .proceed p
  | none =>
    match listRes with
    | some ps =>
      match ps.find? (fun p => p.id = pid) with
      | some p => .proceed p
      | none => .notFound
    | none => .transient

/-- The distinct ways `pollExecutionProcess` terminates. -/
inductive TrackOutcome where
  | cancelledByClient
  | procNotFound
  | execCompleted (exitCode : Option Int)
  | execFailed (exitCode : Option Int)
  | execKilled
  | timedOut
deriving DecidableEq

/-- The MCP task status stored on the tracking record at each outcome. -/
def finalTrackStatus : TrackOutcome → McpTaskStatus
  | .cancelledByClient => .cancelled
  | .procNotFound => .failed
  | .execCompleted _ => .completed
  | .execFailed _ => .failed
  | .execKilled => .cancelled
  | .timedOut => .failed

/-- The reason string passed to `updateTaskStatus` at each non-result
outcome (`none` for the outcomes stored via `storeTaskResult`). -/
def finalTrackReason : TrackOutcome → Option String
  | .cancelledByClient => some "Cancelled by client"
  | .procNotFound => some "Execution process not found"
  | .execKilled => some "Execution killed"
  | .timedOut => some "Timed out after 10 minutes"
  | _ => none

/-- Constant `POLL_INTERVAL_MS` from `src/tasks.ts`. -/
def POLL_INTERVAL_MS : Nat := 5000

/-- Constant `MAX_POLL_ITERATIONS` from `src/tasks.ts` (10 minutes at 5000 ms). -/
def MAX_POLL_ITERATIONS : Nat := 120

/-- From `src/tasks.ts`, `pollExecutionProcess` lines 94-167: the loop body
at iteration `i` with `fuel` iterations remaining.  Progress emission is
best-effort and does not influence control flow, so it is not modelled. -/
def pollLoop (pid : String) (env : Nat → IterEnv) : Nat → Nat → TrackOutcome
  | _, 0 => .timedOut
  | i, fuel + 1 =>
    if (env i).aborted then .cancelledByClient
    else
      match resolveProcess pid (env i).fetchRes (env i).listRes with
      | .notFound => .procNotFound
      | .transient => pollLoop pid env (i + 1) fuel
      | .proceed p =>
        match mapStatus p.status with
        | .completed => .execCompleted p.exit_code
        | .failed => .execFailed p.exit_code
        | .cancelled => .execKilled
        | .working => pollLoop pid env (i + 1) fuel

/-- The full tracker loop: 120 iterations starting at `i = 0`. -/
def pollExecutionProcess (pid : String) (env : Nat → IterEnv) : TrackOutcome :=
  pollLoop pid env 0 MAX_POLL_ITERATIONS

/-- Witness environment: never aborted, direct fetch always succeeds with a
running process. -/
def runningEnv : Nat → IterEnv :=
  fun _ => { aborted := false,
             fetchRes := some { id := "p1", status := .running, exit_code := none },
             listRes := none }

/-- Witness environment: never aborted, direct fetch always throws, the
fallback listing succeeds but does not contain the process. -/
def notFoundEnv : Nat → IterEnv :=
  fun _ => { aborted := false, fetchRes := none, listRes := some [] }

-- ============================================================
-- send_message busy-queue protocol (tools, sendMessageTool.handler)
-- ============================================================

/-- Whether `hay` starts with `pat`. -/
def listStartsWith : List Char → List Char → Bool
  | [], _ => true
  | _ :: _, [] => false
  | p :: ps, c :: cs => p == c && listStartsWith ps cs

/-- Whether `pat` occurs contiguously anywhere in the second list. -/
def listContains (pat : List Char) : List Char → Bool
  | [] => listStartsWith pat []
  | c :: cs => listStartsWith pat (c :: cs) || listContains pat cs

/-- Model of `String.prototype.includes`: `hay.includes(pat)`. -/
def strIncludes (hay pat : String) : Bool := listContains pat.toList hay.toList

/-- Specification-level substring predicate: `pat` is a contiguous
substring of `hay`. -/
def SubstrOf (pat hay : String) : Prop :=
  ∃ l r, hay.toList = l ++ pat.toList ++ r

/-- From the `send_message` handler: the busy-signal heuristic
`errorStr.includes(running) || errorStr.includes(busy) ||
errorStr.includes(409) || errorStr.includes(conflict)`. -/
def isBusyError (errorStr : String) : Bool :=
  strIncludes errorStr "running" || strIncludes errorStr "busy" ||
    strIncludes errorStr "409" || strIncludes errorStr "conflict"

/-- From the `send_message` handler:
`args.auto_queue !== false && (busy heuristic)`. -/
def shouldQueue (autoQueue : Option Bool) (errorStr : String) : Bool :=
  (autoQueue != some false) && isBusyError errorStr

/-- Terminal outcome of one `send_message` invocation after the executor
has been resolved. -/
inductive SendOutcome where
  | doneSent (p : ExecProcess)
  | doneQueued
  | failed (error : String)
deriving DecidableEq

/-- Outcome plus whether the queueing path (`client.queueMessage`) was
entered. -/
structure SendMessageResult where
  outcome : SendOutcome
  queueAttempted : Bool
deriving DecidableEq

/-- From the `send_message` handler, the inner try/catch around
`client.sendFollowUp`: on success report DONE_SENT; on failure queue iff
`shouldQueue`, reporting DONE_QUEUED on queue success; a queue failure or
a suppressed queue rethrows into the outer catch, surfacing the error. -/
def sendMessageFlow (autoQueue : Option Bool) (sendRes : Except String ExecProcess)
    (queueRes : Except String Unit) : SendMessageResult :=
  match sendRes with
  | .ok p => { outcome := .doneSent p, queueAttempted := false }
  | .error e =>
    if shouldQueue autoQueue e then
      match queueRes with
      | .ok _ => { outcome := .doneQueued, queueAttempted := true }
      | .error qe => { outcome := .failed qe, queueAttempted := true }
    else
      { outcome := .failed e, queueAttempted := false }

-- ============================================================
-- listTasks (client.ts, VibeClient.listTasks)
-- ============================================================

/-- From `src/api/types.ts`: `TaskStatus`. -/
inductive TaskStatus where
  | todo
  | inprogress
  | inreview
  | done
  | cancelled
deriving DecidableEq

/-- The fields of a gateway task that `listTasks` inspects. -/
structure Task where
  id : String
  status : TaskStatus
deriving DecidableEq

/-- From `src/api/client.ts`, `VibeClient.listTasks`: filter by status when
given, then `limit ? filtered.slice(0, limit) : filtered` (note `0` is
falsy in JS, so a zero limit does not truncate). -/
def listTasks (tasks : List Task) (status : Option TaskStatus)
    (limit : Option Nat) : List Task :=
  let filtered :=
    match status with
    | some st => tasks.filter (fun t => t.status = st)
    | none => tasks
  match limit with
  | some n => if n = 0 then filtered else filtered.take n
  | none => filtered

-- ============================================================
-- Theorems
-- ============================================================

theorem char_eq_of_toNat_eq {a b : Char} (h : a.toNat = b.toNat) : a = b :=
  Char.eq_of_val_eq (UInt32.ext h)

theorem charOfNatAux_toNat (n : Nat) (h : n.isValidChar) :
    (Char.ofNatAux n h).toNat = n := by
  simp [Char.ofNatAux, Char.toNat, UInt32.toNat, BitVec.toNat_ofNatLt]

theorem charOfNat_toNat (n : Nat) (h : n.isValidChar) :
    (Char.ofNat n).toNat = n := by
  unfold Char.ofNat
  rw [dif_pos h]
  exact charOfNatAux_toNat n h

theorem toUpper_toNat (c : Char) :
    (Char.toUpper c).toNat =
      if c.toNat ≥ 97 ∧ c.toNat ≤ 122 then c.toNat - 32 else c.toNat := by
  unfold Char.toUpper
  by_cases h : c.toNat ≥ 97 ∧ c.toNat ≤ 122
  · rw [if_pos h, if_pos h]
    refine charOfNat_toNat _ (Or.inl ?_)
    omega
  · rw [if_neg h, if_neg h]

theorem toUpper_idem (c : Char) :
    Char.toUpper (Char.toUpper c) = Char.toUpper c := by
  apply char_eq_of_toNat_eq
  rw [toUpper_toNat, toUpper_toNat c]
  split_ifs <;> omega

theorem isWS_true_iff (c : Char) :
    isWS c = true ↔ (c.toNat = 32 ∨ c.toNat = 9 ∨ c.toNat = 13 ∨ c.toNat = 10) := by
  have hiff : (((c = ' ' ∨ c = '\t') ∨ c = '\x0d') ∨ c = '\n') ↔
      (c.toNat = 32 ∨ c.toNat = 9 ∨ c.toNat = 13 ∨ c.toNat = 10) := by
    constructor
    · rintro (((rfl | rfl) | rfl) | rfl) <;> simp [Char.toNat]
    · rintro (h | h | h | h)
      · exact Or.inl (Or.inl (Or.inl (char_eq_of_toNat_eq h)))
      · exact Or.inl (Or.inl (Or.inr (char_eq_of_toNat_eq h)))
      · exact Or.inl (Or.inr (char_eq_of_toNat_eq h))
      · exact Or.inr (char_eq_of_toNat_eq h)
  simpa only [isWS, Char.isWhitespace, Bool.or_eq_true, decide_eq_true_eq] using hiff

theorem isWS_toUpper (c : Char) : isWS (Char.toUpper c) = isWS c := by
  rw [Bool.eq_iff_iff, isWS_true_iff, isWS_true_iff, toUpper_toNat]
  split_ifs <;> omega

theorem replDash_of_ne (c : Char) (h : c ≠ '-') : replDash c = c := by
  simp [replDash, h]

theorem isWS_replDash (c : Char) : isWS (replDash c) = isWS c := by
  by_cases h : c = '-'
  · subst h
    decide
  · rw [replDash_of_ne c h]

theorem replDash_ne_dash (c : Char) : replDash c ≠ '-' := by
  by_cases h : c = '-'
  · subst h
    decide
  · rw [replDash_of_ne c h]
    exact h

theorem toUpper_ne_dash (c : Char) (h : c ≠ '-') : Char.toUpper c ≠ '-' := by
  intro hc
  have hn := congrArg Char.toNat hc
  rw [toUpper_toNat] at hn
  have h45 : ('-' : Char).toNat = 45 := rfl
  rw [h45] at hn
  by_cases hb : c.toNat ≥ 97 ∧ c.toNat ≤ 122
  · rw [if_pos hb] at hn
    omega
  · rw [if_neg hb] at hn
    exact h (char_eq_of_toNat_eq (by rw [hn, h45]))

theorem dropWhile_dropWhile {α : Type} (p : α → Bool) (l : List α) :
    (l.dropWhile p).dropWhile p = l.dropWhile p := by
  induction l with
  | nil => rfl
  | cons a l ih =>
    by_cases h : p a
    · simp [List.dropWhile_cons, h, ih]
    · simp [List.dropWhile_cons, h]

theorem dropWhile_map_comm {α : Type} (p : α → Bool) (f : α → α)
    (hf : ∀ a, p (f a) = p a) (l : List α) :
    (l.map f).dropWhile p = (l.dropWhile p).map f := by
  induction l with
  | nil => rfl
  | cons a l ih =>
    by_cases h : p a
    · simp [List.dropWhile_cons, hf, h, ih]
    · simp [List.dropWhile_cons, hf, h]

theorem dropWhile_cases {α : Type} (p : α → Bool) (l : List α) :
    l.dropWhile p = [] ∨ ∃ a t, l.dropWhile p = a :: t ∧ p a = false := by
  induction l with
  | nil => exact Or.inl rfl
  | cons a l ih =>
    by_cases h : p a
    · simpa [List.dropWhile_cons, h] using ih
    · exact Or.inr ⟨a, l, by simp [List.dropWhile_cons, h], by simp [h]⟩

theorem trimLeftL_map (f : Char → Char) (hf : ∀ c, isWS (f c) = isWS c)
    (l : List Char) : trimLeftL (l.map f) = (trimLeftL l).map f :=
  dropWhile_map_comm isWS f hf l

theorem trimRightL_map (f : Char → Char) (hf : ∀ c, isWS (f c) = isWS c)
    (l : List Char) : trimRightL (l.map f) = (trimRightL l).map f := by
  unfold trimRightL
  rw [← List.map_reverse, dropWhile_map_comm isWS f hf, List.map_reverse]

theorem jsTrimL_map (f : Char → Char) (hf : ∀ c, isWS (f c) = isWS c)
    (l : List Char) : jsTrimL (l.map f) = (jsTrimL l).map f := by
  unfold jsTrimL
  rw [trimLeftL_map f hf, trimRightL_map f hf]

theorem trimRightL_trimRightL (l : List Char) :
    trimRightL (trimRightL l) = trimRightL l := by
  unfold trimRightL
  rw [List.reverse_reverse, dropWhile_dropWhile]

theorem trimLeftL_trimRightL_head (a : Char) (t : List Char)
    (ha : isWS a = false) :
    trimLeftL (trimRightL (a :: t)) = trimRightL (a :: t) := by
  unfold trimRightL trimLeftL
  rw [List.reverse_cons, List.dropWhile_append]
  by_cases h : (t.reverse.dropWhile isWS).isEmpty
  · rw [if_pos h]
    simp [List.dropWhile_cons, ha]
  · rw [if_neg h]
    rw [List.reverse_append]
    simp [List.dropWhile_cons, ha]

theorem jsTrimL_jsTrimL (l : List Char) : jsTrimL (jsTrimL l) = jsTrimL l := by
  rcases dropWhile_cases isWS l with h | ⟨a, t, h, ha⟩
  · have hL : trimLeftL l = [] := h
    unfold jsTrimL
    rw [hL]
    rfl
  · have hL : trimLeftL l = a :: t := h
    unfold jsTrimL
    rw [hL, trimLeftL_trimRightL_head a t ha, trimRightL_trimRightL]

theorem normChar_fix (c : Char) :
    Char.toUpper (replDash (Char.toUpper (replDash c))) =
      Char.toUpper (replDash c) := by
  rw [replDash_of_ne _ (toUpper_ne_dash _ (replDash_ne_dash c))]
  exact toUpper_idem _

/-- Claim C7: executor normalization trims surrounding whitespace, replaces
every hyphen with an underscore and upper-cases, so that `claude-code`,
`CLAUDE_CODE` and `  Claude-Code ` all normalize to `CLAUDE_CODE`, and
normalization is idempotent on every string. -/
theorem executor_normalization_spec :
    normalizeExecutor "claude-code" = "CLAUDE_CODE"
    ∧ normalizeExecutor "CLAUDE_CODE" = "CLAUDE_CODE"
    ∧ normalizeExecutor "  Claude-Code " = "CLAUDE_CODE"
    ∧ ∀ s : String, normalizeExecutor (normalizeExecutor s) = normalizeExecutor s := by
  refine ⟨by decide, by decide, by decide, ?_⟩
  intro s
  unfold normalizeExecutor
  apply congrArg String.mk
  have hpres : ∀ c, isWS ((Char.toUpper ∘ replDash) c) = isWS c := by
    intro c
    show isWS (Char.toUpper (replDash c)) = isWS c
    rw [isWS_toUpper, isWS_replDash]
  simp only [List.map_map]
  show List.map (Char.toUpper ∘ replDash)
      (jsTrimL (List.map (Char.toUpper ∘ replDash) (jsTrimL s.toList)))
    = List.map (Char.toUpper ∘ replDash) (jsTrimL s.toList)
  rw [jsTrimL_map (Char.toUpper ∘ replDash) hpres, jsTrimL_jsTrimL]
  simp only [List.map_map]
  exact List.map_congr_left fun c _ => normChar_fix c

/-- Claim C9: `mapStatus` sends `running`, `completed`, `failed`, `killed`
to `working`, `completed`, `failed`, `cancelled` respectively, and no other
mapping is possible for any input status. -/
theorem mapStatus_spec :
    mapStatus .running = .working
    ∧ mapStatus .completed = .completed
    ∧ mapStatus .failed = .failed
    ∧ mapStatus .killed = .cancelled
    ∧ ∀ s : ExecutionProcessStatus,
        (mapStatus s = .working ↔ s = .running)
        ∧ (mapStatus s = .completed ↔ s = .completed)
        ∧ (mapStatus s = .failed ↔ s = .failed)
        ∧ (mapStatus s = .cancelled ↔ s = .killed) := by
  refine ⟨rfl, rfl, rfl, rfl, ?_⟩
  intro s
  cases s <;> refine ⟨?_, ?_, ?_, ?_⟩ <;> simp [mapStatus]

theorem stepUri_fst_ne (env : PollEnv) (acc : (String → Option String) × List String)
    (uri k : String) (hk : k ≠ uri) : (stepUri env acc uri).1 k = acc.1 k := by
  unfold stepUri
  cases hp : parseResourceUri uri with
  | none => rfl
  | some pu =>
    cases hf : env.fetchJson uri with
    | none => rfl
    | some json =>
      show (if k = uri then some (env.sha256 json) else acc.1 k) = acc.1 k
      rw [if_neg hk]

theorem stepUri_skip (env : PollEnv) (acc : (String → Option String) × List String)
    (uri : String) (h : parseResourceUri uri = none ∨ env.fetchJson uri = none) :
    stepUri env acc uri = acc := by
  unfold stepUri
  rcases h with h | h
  · rw [h]
  · cases hp : parseResourceUri uri with
    | none => rfl
    | some pu => rw [h]

theorem stepUri_success (env : PollEnv) (acc : (String → Option String) × List String)
    (uri json : String) (hp : (parseResourceUri uri).isSome)
    (hf : env.fetchJson uri = some json) :
    stepUri env acc uri =
      ((fun k => if k = uri then some (env.sha256 json) else acc.1 k),
        match acc.1 uri with
        | some old => if old ≠ "" ∧ old ≠ env.sha256 json then acc.2 ++ [uri] else acc.2
        | none => acc.2) := by
  obtain ⟨pu, hpu⟩ := Option.isSome_iff_exists.mp hp
  unfold stepUri
  rw [hpu, hf]

theorem stepUri_fst_eq (env : PollEnv) (acc : (String → Option String) × List String)
    (uri k : String) :
    (stepUri env acc uri).1 k = if k = uri then hashAfter env acc.1 uri else acc.1 k := by
  unfold hashAfter
  cases hp : parseResourceUri uri with
  | none =>
    rw [stepUri_skip env acc uri (Or.inl hp)]
    by_cases hk : k = uri
    · rw [if_pos hk, hk]
    · rw [if_neg hk]
  | some pu =>
    cases hf : env.fetchJson uri with
    | none =>
      rw [stepUri_skip env acc uri (Or.inr hf)]
      by_cases hk : k = uri
      · rw [if_pos hk, hk]
      · rw [if_neg hk]
    | some json =>
      rw [stepUri_success env acc uri json (by rw [hp]; rfl) hf]

theorem stepUri_snd_eq (env : PollEnv) (acc : (String → Option String) × List String)
    (uri : String) :
    (stepUri env acc uri).2 = if emits env acc.1 uri then acc.2 ++ [uri] else acc.2 := by
  unfold emits
  cases hp : parseResourceUri uri with
  | none =>
    rw [stepUri_skip env acc uri (Or.inl hp)]
    rfl
  | some pu =>
    cases hf : env.fetchJson uri with
    | none =>
      rw [stepUri_skip env acc uri (Or.inr hf)]
      rfl
    | some json =>
      rw [stepUri_success env acc uri json (by rw [hp]; rfl) hf]
      cases ho : acc.1 uri with
      | none => rfl
      | some old =>
        show (if old ≠ "" ∧ old ≠ env.sha256 json then acc.2 ++ [uri] else acc.2) =
          if (if old ≠ "" ∧ old ≠ env.sha256 json then true else false) = true
            then acc.2 ++ [uri] else acc.2
        by_cases hc : old ≠ "" ∧ old ≠ env.sha256 json
        · rw [if_pos hc, if_pos hc]
          rfl
        · rw [if_neg hc, if_neg hc]
          rfl

theorem stepUri_snd_cases (env : PollEnv) (acc : (String → Option String) × List String)
    (uri : String) :
    (stepUri env acc uri).2 = acc.2 ∨ (stepUri env acc uri).2 = acc.2 ++ [uri] := by
  by_cases he : emits env acc.1 uri = true
  · right
    rw [stepUri_snd_eq, if_pos he]
  · left
    rw [stepUri_snd_eq, if_neg he]

theorem hashAfter_congr (env : PollEnv) (m1 m2 : String → Option String)
    (uri : String) (h : m1 uri = m2 uri) :
    hashAfter env m1 uri = hashAfter env m2 uri := by
  unfold hashAfter
  cases parseResourceUri uri with
  | none => exact h
  | some pu =>
    cases env.fetchJson uri with
    | none => exact h
    | some json => rfl

theorem emits_congr (env : PollEnv) (m1 m2 : String → Option String)
    (uri : String) (h : m1 uri = m2 uri) :
    emits env m1 uri = emits env m2 uri := by
  unfold emits
  cases parseResourceUri uri with
  | none => rfl
  | some pu =>
    cases env.fetchJson uri with
    | none => rfl
    | some json => rw [h]

theorem emits_of_none (env : PollEnv) (m : String → Option String) (uri : String)
    (h : m uri = none) : emits env m uri = false := by
  unfold emits
  cases parseResourceUri uri with
  | none => rfl
  | some pu =>
    cases env.fetchJson uri with
    | none => rfl
    | some json => rw [h]

theorem emits_true_iff (env : PollEnv) (m : String → Option String) (uri j : String)
    (hp : (parseResourceUri uri).isSome) (hf : env.fetchJson uri = some j)
    (hstored : ∀ old, m uri = some old → old ≠ "") :
    emits env m uri = true ↔ ∃ old, m uri = some old ∧ old ≠ env.sha256 j := by
  obtain ⟨pu, hpu⟩ := Option.isSome_iff_exists.mp hp
  unfold emits
  rw [hpu, hf]
  cases ho : m uri with
  | none =>
    show false = true ↔ ∃ old, (none : Option String) = some old ∧ old ≠ env.sha256 j
    refine iff_of_false (by simp) ?_
    rintro ⟨o, hoo, _⟩
    exact Option.noConfusion hoo
  | some old =>
    have hne := hstored old ho
    show (if old ≠ "" ∧ old ≠ env.sha256 j then true else false) = true ↔
      ∃ o, (some old : Option String) = some o ∧ o ≠ env.sha256 j
    by_cases hc : old ≠ env.sha256 j
    · rw [if_pos ⟨hne, hc⟩]
      exact iff_of_true rfl ⟨old, rfl, hc⟩
    · rw [if_neg (fun hand => hc hand.2)]
      refine iff_of_false (by simp) ?_
      rintro ⟨o, hoo, hoc⟩
      cases hoo
      exact absurd hoc hc

theorem foldl_fst_not_mem (env : PollEnv) (U : String) :
    ∀ (L : List String), U ∉ L →
      ∀ acc, (L.foldl (stepUri env) acc).1 U = acc.1 U := by
  intro L
  induction L with
  | nil => intro _ acc; rfl
  | cons a L ih =>
    intro hU acc
    rw [List.foldl_cons, ih (fun h => hU (List.mem_cons_of_mem a h)) _,
      stepUri_fst_ne env acc a U (fun h => hU (h ▸ List.mem_cons_self a L))]

theorem foldl_fst_fail (env : PollEnv) (U : String)
    (hUfail : parseResourceUri U = none ∨ env.fetchJson U = none) :
    ∀ (L : List String) acc, (L.foldl (stepUri env) acc).1 U = acc.1 U := by
  intro L
  induction L with
  | nil => intro acc; rfl
  | cons a L ih =>
    intro acc
    rw [List.foldl_cons, ih]
    by_cases ha : U = a
    · subst ha
      rw [stepUri_skip env acc U hUfail]
    · exact stepUri_fst_ne env acc a U ha

theorem foldl_snd_mem (env : PollEnv) (x : String) :
    ∀ (L : List String) acc,
      x ∈ (L.foldl (stepUri env) acc).2 → x ∈ acc.2 ∨ x ∈ L := by
  intro L
  induction L with
  | nil => intro acc h; exact Or.inl h
  | cons a L ih =>
    intro acc h
    rw [List.foldl_cons] at h
    rcases ih _ h with h1 | h1
    · rcases stepUri_snd_cases env acc a with h2 | h2
      · rw [h2] at h1
        exact Or.inl h1
      · rw [h2] at h1
        rcases List.mem_append.mp h1 with h3 | h3
        · exact Or.inl h3
        · right
          rw [List.mem_singleton.mp h3]
          exact List.mem_cons_self a L
    · exact Or.inr (List.mem_cons_of_mem a h1)

theorem foldl_snd_iff_not_mem (env : PollEnv) (U : String) :
    ∀ (L : List String), U ∉ L →
      ∀ acc, (U ∈ (L.foldl (stepUri env) acc).2 ↔ U ∈ acc.2) := by
  intro L
  induction L with
  | nil => intro _ acc; exact Iff.rfl
  | cons a L ih =>
    intro hU acc
    rw [List.foldl_cons, ih (fun h => hU (List.mem_cons_of_mem a h)) _]
    rcases stepUri_snd_cases env acc a with h2 | h2
    · rw [h2]
    · rw [h2, List.mem_append]
      constructor
      · rintro (h | h)
        · exact h
        · exact absurd (List.mem_singleton.mp h ▸ List.mem_cons_self a L) hU
      · exact Or.inl

theorem checkForChanges_localize (env : PollEnv) (s : SubscriptionManager) (U : String)
    (hND : s.subscriptions.Nodup) (hmem : U ∈ s.subscriptions) :
    (checkForChanges env s).1.lastHashes U = hashAfter env s.lastHashes U
    ∧ (U ∈ (checkForChanges env s).2 ↔ emits env s.lastHashes U = true) := by
  obtain ⟨L1, L2, hsplit⟩ := List.append_of_mem hmem
  rw [hsplit] at hND
  have hU2 : U ∉ L2 := by
    have := (List.nodup_append.mp hND).2.1
    exact (List.nodup_cons.mp this).1
  have hU1 : U ∉ L1 := by
    intro h
    exact (List.nodup_append.mp hND).2.2 h (List.mem_cons_self U L2)
  have hfold : s.subscriptions.foldl (stepUri env) (s.lastHashes, []) =
      L2.foldl (stepUri env)
        (stepUri env (L1.foldl (stepUri env) (s.lastHashes, [])) U) := by
    rw [hsplit, List.foldl_append, List.foldl_cons]
  have hA1 : (L1.foldl (stepUri env) (s.lastHashes, ([] : List String))).1 U
      = s.lastHashes U := foldl_fst_not_mem env U L1 hU1 _
  have hA2 : U ∉ (L1.foldl (stepUri env) (s.lastHashes, ([] : List String))).2 := by
    intro h
    rcases foldl_snd_mem env U L1 _ h with h1 | h1
    · cases h1
    · exact hU1 h1
  constructor
  · show (s.subscriptions.foldl (stepUri env) (s.lastHashes, [])).1 U = _
    rw [hfold, foldl_fst_not_mem env U L2 hU2 _, stepUri_fst_eq, if_pos rfl,
      hashAfter_congr env _ _ U hA1]
  · show U ∈ (s.subscriptions.foldl (stepUri env) (s.lastHashes, [])).2 ↔ _
    rw [hfold, foldl_snd_iff_not_mem env U L2 hU2 _, stepUri_snd_eq,
      emits_congr env _ _ U hA1]
    by_cases he : emits env s.lastHashes U = true
    · rw [if_pos he]
      exact iff_of_true (List.mem_append.mpr (Or.inr (List.mem_singleton.mpr rfl))) he
    · rw [if_neg he]
      exact iff_of_false hA2 he

theorem notifs_mem_subscriptions (env : PollEnv) (s : SubscriptionManager) (x : String)
    (h : x ∈ (checkForChanges env s).2) : x ∈ s.subscriptions := by
  rcases foldl_snd_mem env x s.subscriptions (s.lastHashes, []) h with h1 | h1
  · cases h1
  · exact h1

theorem no_notify_of_no_hash (env : PollEnv) (s : SubscriptionManager) (U : String)
    (hND : s.subscriptions.Nodup) (h0 : s.lastHashes U = none) :
    U ∉ (checkForChanges env s).2 := by
  by_cases hmem : U ∈ s.subscriptions
  · obtain ⟨_, hm⟩ := checkForChanges_localize env s U hND hmem
    rw [hm, emits_of_none env s.lastHashes U h0]
    simp

  · intro h
    exact hmem (notifs_mem_subscriptions env s U h)

/-- Claim C1: for a subscribed URI whose fetch succeeds in a poll tick, a
notification is emitted in that tick iff a fingerprint was stored before
the tick and differs from the fingerprint of the new content; the stored
fingerprint is always overwritten with the new value; and when no
fingerprint was stored (first poll after subscribing) nothing is
emitted. -/
theorem subscription_notify_iff (env : PollEnv) (s : SubscriptionManager) (U j : String)
    (hND : s.subscriptions.Nodup) (hmem : U ∈ s.subscriptions)
    (hp : (parseResourceUri U).isSome) (hf : env.fetchJson U = some j)
    (hstored : ∀ old, s.lastHashes U = some old → old ≠ "") :
    (U ∈ (checkForChanges env s).2 ↔
      ∃ old, s.lastHashes U = some old ∧ old ≠ env.sha256 j)
    ∧ (checkForChanges env s).1.lastHashes U = some (env.sha256 j)
    ∧ (s.lastHashes U = none → U ∉ (checkForChanges env s).2) := by
  obtain ⟨hh, hm⟩ := checkForChanges_localize env s U hND hmem
  refine ⟨?_, ?_, ?_⟩
  · rw [hm, emits_true_iff env s.lastHashes U j hp hf hstored]
  · rw [hh]
    unfold hashAfter
    obtain ⟨pu, hpu⟩ := Option.isSome_iff_exists.mp hp
    rw [hpu, hf]
  · intro h0
    rw [hm, emits_of_none env s.lastHashes U h0]
    simp

theorem subscription_notify_iff_witness :
    ("vibe://tasks" ∈ (checkForChanges okEnv (subscribe initialManager "vibe://tasks")).2 ↔
      ∃ old, (subscribe initialManager "vibe://tasks").lastHashes "vibe://tasks" = some old ∧
        old ≠ okEnv.sha256 "data")
    ∧ (checkForChanges okEnv (subscribe initialManager "vibe://tasks")).1.lastHashes
        "vibe://tasks" = some (okEnv.sha256 "data")
    ∧ ((subscribe initialManager "vibe://tasks").lastHashes "vibe://tasks" = none →
        "vibe://tasks" ∉ (checkForChanges okEnv (subscribe initialManager "vibe://tasks")).2) :=
  subscription_notify_iff okEnv (subscribe initialManager "vibe://tasks") "vibe://tasks" "data"
    (by decide) (by decide) (by decide) rfl (fun old h => Option.noConfusion h)

theorem unsubscribe_not_mem (s : SubscriptionManager) (U : String) :
    U ∉ (unsubscribe s U).subscriptions := by
  intro h
  have h2 := List.mem_filter.mp h
  simp at h2

theorem unsubscribe_nodup (s : SubscriptionManager) (U : String)
    (h : s.subscriptions.Nodup) : (unsubscribe s U).subscriptions.Nodup :=
  List.Nodup.filter _ h

theorem unsubscribe_lastHashes_self (s : SubscriptionManager) (U : String) :
    (unsubscribe s U).lastHashes U = none := by
  show (if U = U then none else s.lastHashes U) = none
  rw [if_pos rfl]

theorem subscribe_nodup (s : SubscriptionManager) (U : String)
    (h : s.subscriptions.Nodup) : (subscribe s U).subscriptions.Nodup := by
  show (if U ∈ s.subscriptions then s.subscriptions else s.subscriptions ++ [U]).Nodup
  by_cases hm : U ∈ s.subscriptions
  · rw [if_pos hm]
    exact h
  · rw [if_neg hm]
    refine List.Nodup.append h (List.nodup_singleton U) ?_
    intro a ha hb
    rw [List.mem_singleton] at hb
    subst hb
    exact hm ha

/-- Claim C3: after `unsubscribe(U)` no notification is emitted for `U` in
a subsequent tick, the stored fingerprint of `U` is gone, and re-subscribing
behaves like a fresh subscription: the first tick after re-subscribing emits
nothing for `U`, whatever the environment returns. -/
theorem unsubscribe_fresh_subscription (env env2 : PollEnv) (s : SubscriptionManager)
    (U : String) (hND : s.subscriptions.Nodup) :
    U ∉ (checkForChanges env (unsubscribe s U)).2
    ∧ (unsubscribe s U).lastHashes U = none
    ∧ U ∉ (checkForChanges env2 (subscribe (unsubscribe s U) U)).2 := by
  refine ⟨?_, unsubscribe_lastHashes_self s U, ?_⟩
  · intro h
    exact unsubscribe_not_mem s U (notifs_mem_subscriptions env _ U h)
  · exact no_notify_of_no_hash env2 _ U
      (subscribe_nodup _ U (unsubscribe_nodup s U hND))
      (unsubscribe_lastHashes_self s U)

theorem unsubscribe_fresh_subscription_witness :
    "vibe://tasks" ∉
      (checkForChanges okEnv (unsubscribe (subscribe initialManager "vibe://tasks")
        "vibe://tasks")).2
    ∧ (unsubscribe (subscribe initialManager "vibe://tasks") "vibe://tasks").lastHashes
        "vibe://tasks" = none
    ∧ "vibe://tasks" ∉
        (checkForChanges okEnv (subscribe (unsubscribe
          (subscribe initialManager "vibe://tasks") "vibe://tasks") "vibe://tasks")).2 :=
  unsubscribe_fresh_subscription okEnv okEnv (subscribe initialManager "vibe://tasks")
    "vibe://tasks" (by decide)

/-- Claim C8: within one poll tick, a URI whose parse or fetch fails is
skipped without affecting the rest: the subscription set is untouched, the
failing URI keeps its stored fingerprint, and every other subscribed URI
with a successful fetch still gets its fingerprint updated. -/
theorem poll_error_isolation (env : PollEnv) (s : SubscriptionManager) (U V jV : String)
    (hND : s.subscriptions.Nodup)
    (hUfail : parseResourceUri U = none ∨ env.fetchJson U = none)
    (hV : V ∈ s.subscriptions) (hVp : (parseResourceUri V).isSome)
    (hVf : env.fetchJson V = some jV) :
    (checkForChanges env s).1.subscriptions = s.subscriptions
    ∧ (checkForChanges env s).1.lastHashes U = s.lastHashes U
    ∧ (checkForChanges env s).1.lastHashes V = some (env.sha256 jV) := by
  refine ⟨rfl, ?_, ?_⟩
  · exact foldl_fst_fail env U hUfail s.subscriptions (s.lastHashes, [])
  · obtain ⟨hh, _⟩ := checkForChanges_localize env s V hND hV
    rw [hh]
    unfold hashAfter
    obtain ⟨pu, hpu⟩ := Option.isSome_iff_exists.mp hVp
    rw [hpu, hVf]

theorem poll_error_isolation_witness :
    (checkForChanges failEnv
        (subscribe (subscribe initialManager "vibe://tasks") "vibe://context")).1.subscriptions =
      (subscribe (subscribe initialManager "vibe://tasks") "vibe://context").subscriptions
    ∧ (checkForChanges failEnv
        (subscribe (subscribe initialManager "vibe://tasks") "vibe://context")).1.lastHashes
          "vibe://tasks" =
      (subscribe (subscribe initialManager "vibe://tasks") "vibe://context").lastHashes
        "vibe://tasks"
    ∧ (checkForChanges failEnv
        (subscribe (subscribe initialManager "vibe://tasks") "vibe://context")).1.lastHashes
          "vibe://context" = some (failEnv.sha256 "data") :=
  poll_error_isolation failEnv
    (subscribe (subscribe initialManager "vibe://tasks") "vibe://context")
    "vibe://tasks" "vibe://context" "data"
    (by decide) (Or.inr (by decide)) (by decide) (by decide) (by decide)

/-- Claim C4 counterexample: the claim asserts that in every reachable
state the poll timer is active iff the subscription set is non-empty; but
`stopPolling` is part of the public surface (called at shutdown) and
reaches a state with one subscription and an inactive timer. -/
theorem timer_iff_counterexample :
    ReachableFull (stopPolling (subscribe initialManager "vibe://tasks"))
    ∧ (stopPolling (subscribe initialManager "vibe://tasks")).subscriptions ≠ []
    ∧ (stopPolling (subscribe initialManager "vibe://tasks")).pollTimer = false :=
  ⟨ReachableFull.stopStep _ (ReachableFull.subscribeStep _ _ ReachableFull.init),
    by decide, by decide⟩

/-- Claim C4 (amended): excluding the shutdown-time `stopPolling`, in every
state reachable by subscribe, unsubscribe and poll ticks the poll timer is
active iff the subscription set is non-empty; moreover `subscribe` always
leaves the timer running and an `unsubscribe` that empties the set stops
it. -/
theorem timer_lifecycle_amended :
    (∀ s, ReachableOps s → (s.pollTimer = true ↔ s.subscriptions ≠ []))
    ∧ (∀ (s : SubscriptionManager) (u : String), (subscribe s u).pollTimer = true)
    ∧ (∀ (s : SubscriptionManager) (u : String),
        (unsubscribe s u).subscriptions = [] → (unsubscribe s u).pollTimer = false) := by
  refine ⟨?_, ?_, ?_⟩
  · intro s h
    induction h with
    | init => simp [initialManager]
    | subscribeStep s u hs ih =>
      constructor
      · intro _
        show (if u ∈ s.subscriptions then s.subscriptions else s.subscriptions ++ [u]) ≠ []
        by_cases hm : u ∈ s.subscriptions
        · rw [if_pos hm]
          exact List.ne_nil_of_mem hm
        · rw [if_neg hm]
          simp
      · intro _
        show (if s.pollTimer = true then s.pollTimer else true) = true
        by_cases ht : s.pollTimer = true
        · rw [if_pos ht]
          exact ht
        · rw [if_neg ht]
    | unsubscribeStep s u hs ih =>
      show (if (s.subscriptions.filter fun x => x ≠ u).isEmpty = true then false
          else s.pollTimer) = true ↔ (s.subscriptions.filter fun x => x ≠ u) ≠ []
      by_cases he : (s.subscriptions.filter fun x => x ≠ u).isEmpty = true
      · rw [if_pos he]
        have hnil : (s.subscriptions.filter fun x => x ≠ u) = [] :=
          List.isEmpty_iff.mp he
        exact iff_of_false Bool.false_ne_true (fun hne => hne hnil)
      · rw [if_neg he]
        have hne : (s.subscriptions.filter fun x => x ≠ u) ≠ [] :=
          fun hnil => he (by rw [hnil]; rfl)
        rw [ih]
        have hsub : s.subscriptions ≠ [] := fun hnil => hne (by rw [hnil]; rfl)
        exact iff_of_true hsub hne
    | pollStep s env hs ih => exact ih
  · intro s u
    show (if s.pollTimer = true then s.pollTimer else true) = true
    by_cases ht : s.pollTimer = true
    · rw [if_pos ht]
      exact ht
    · rw [if_neg ht]
  · intro s u h
    show (if (s.subscriptions.filter fun x => x ≠ u).isEmpty = true then false
        else s.pollTimer) = false
    have he : (s.subscriptions.filter fun x => x ≠ u).isEmpty = true :=
      List.isEmpty_iff.mpr h
    rw [if_pos he]

theorem timer_lifecycle_amended_witness :
    ((subscribe initialManager "vibe://tasks").pollTimer = true ↔
      (subscribe initialManager "vibe://tasks").subscriptions ≠ []) :=
  timer_lifecycle_amended.1 (subscribe initialManager "vibe://tasks")
    (ReachableOps.subscribeStep _ _ ReachableOps.init)

theorem resolveProcess_none_some (pid : String) (ps : List ExecProcess) :
    resolveProcess pid none (some ps) =
      (match ps.find? (fun p => p.id = pid) with
       | some p => IterFetch.proceed p
       | none => IterFetch.notFound) := rfl

theorem pollLoop_succ_eq (pid : String) (env : Nat → IterEnv) (i fuel : Nat) :
    pollLoop pid env i (fuel + 1) =
      (if (env i).aborted = true then .cancelledByClient
       else
        match resolveProcess pid (env i).fetchRes (env i).listRes with
        | .notFound => .procNotFound
        | .transient => pollLoop pid env (i + 1) fuel
        | .proceed p =>
          match mapStatus p.status with
          | .completed => .execCompleted p.exit_code
          | .failed => .execFailed p.exit_code
          | .cancelled => .execKilled
          | .working => pollLoop pid env (i + 1) fuel) := rfl

/-- Claim C5: in the tracker loop, a direct-fetch failure triggers exactly
one fallback (list the processes of the session and find by id); the
record is marked failed with a not-found reason only when the fetch failed
and the fallback list succeeded without containing the process; when
either the fetch or the fallback yields the process, the iteration keeps
polling with that process. -/
theorem tracker_fallback_spec :
    (∀ (pid : String) (fetchRes : Option ExecProcess)
        (listRes : Option (List ExecProcess)),
      resolveProcess pid fetchRes listRes = .notFound ↔
        (fetchRes = none ∧ ∃ ps, listRes = some ps ∧
          ps.find? (fun p => p.id = pid) = none))
    ∧ (∀ (pid : String) (p : ExecProcess) (listRes : Option (List ExecProcess)),
        resolveProcess pid (some p) listRes = .proceed p)
    ∧ (∀ (pid : String) (ps : List ExecProcess) (p : ExecProcess),
        ps.find? (fun q => q.id = pid) = some p →
        resolveProcess pid none (some ps) = .proceed p)
    ∧ (∀ (pid : String) (env : Nat → IterEnv) (i fuel : Nat),
        (env i).aborted = false →
        resolveProcess pid (env i).fetchRes (env i).listRes = .notFound →
        pollLoop pid env i (fuel + 1) = .procNotFound)
    ∧ (∀ (pid : String) (env : Nat → IterEnv) (i fuel : Nat) (p : ExecProcess),
        (env i).aborted = false →
        resolveProcess pid (env i).fetchRes (env i).listRes = .proceed p →
        mapStatus p.status = .working →
        pollLoop pid env i (fuel + 1) = pollLoop pid env (i + 1) fuel) := by
  refine ⟨?_, ?_, ?_, ?_, ?_⟩
  · intro pid fetchRes listRes
    cases fetchRes with
    | some p => simp [resolveProcess]
    | none =>
      cases listRes with
      | none => simp [resolveProcess]
      | some ps =>
        cases hfind : ps.find? (fun p => p.id = pid) with
        | some p =>
          rw [resolveProcess_none_some, hfind]
          constructor
          · intro h
            cases h
          · rintro ⟨_, ps2, hps2, hfind2⟩
            cases hps2
            rw [hfind] at hfind2
            cases hfind2
        | none =>
          rw [resolveProcess_none_some, hfind]
          exact iff_of_true rfl ⟨rfl, ps, rfl, hfind⟩
  · intro pid p listRes
    rfl
  · intro pid ps p h
    simp [resolveProcess, h]
  · intro pid env i fuel hab hres
    rw [pollLoop_succ_eq pid env i fuel, hab, if_neg Bool.false_ne_true, hres]
  · intro pid env i fuel p hab hres hst
    rw [pollLoop_succ_eq pid env i fuel, hab, if_neg Bool.false_ne_true, hres]
    show (match mapStatus p.status with
      | McpTaskStatus.completed => TrackOutcome.execCompleted p.exit_code
      | McpTaskStatus.failed => TrackOutcome.execFailed p.exit_code
      | McpTaskStatus.cancelled => TrackOutcome.execKilled
      | McpTaskStatus.working => pollLoop pid env (i + 1) fuel) =
        pollLoop pid env (i + 1) fuel
    rw [hst]

theorem tracker_fallback_spec_witness :
    pollLoop "p1" notFoundEnv 0 120 = .procNotFound :=
  tracker_fallback_spec.2.2.2.1 "p1" notFoundEnv 0 119 rfl (by decide)

/-- Claim C6: if the Gateway reports `running` on every iteration and no
cancellation arrives, the tracker loop exhausts its 120-iteration budget
and terminates as `failed` with the timeout reason, never remaining
`working`. -/
theorem tracker_timeout_spec (pid : String) (env : Nat → IterEnv)
    (hab : ∀ i, (env i).aborted = false)
    (hrun : ∀ i, ∃ p, (env i).fetchRes = some p ∧ p.status = .running) :
    pollExecutionProcess pid env = .timedOut
    ∧ finalTrackStatus (pollExecutionProcess pid env) = .failed
    ∧ finalTrackReason (pollExecutionProcess pid env) =
        some "Timed out after 10 minutes"
    ∧ finalTrackStatus (pollExecutionProcess pid env) ≠ .working := by
  have key : ∀ fuel i, pollLoop pid env i fuel = .timedOut := by
    intro fuel
    induction fuel with
    | zero => intro i; rfl
    | succ n ih =>
      intro i
      obtain ⟨p, hf, hst⟩ := hrun i
      have hres : resolveProcess pid (env i).fetchRes (env i).listRes = .proceed p := by
        unfold resolveProcess
        rw [hf]
      rw [pollLoop_succ_eq pid env i n, hab i, if_neg Bool.false_ne_true, hres]
      show (match mapStatus p.status with
        | McpTaskStatus.completed => TrackOutcome.execCompleted p.exit_code
        | McpTaskStatus.failed => TrackOutcome.execFailed p.exit_code
        | McpTaskStatus.cancelled => TrackOutcome.execKilled
        | McpTaskStatus.working => pollLoop pid env (i + 1) n) = .timedOut
      rw [hst]
      show pollLoop pid env (i + 1) n = .timedOut
      exact ih (i + 1)
  have hmain : pollExecutionProcess pid env = .timedOut := key MAX_POLL_ITERATIONS 0
  refine ⟨hmain, ?_, ?_, ?_⟩
  · rw [hmain]
    rfl
  · rw [hmain]
    rfl
  · rw [hmain]
    intro h
    cases h

theorem tracker_timeout_spec_witness :
    pollExecutionProcess "p1" runningEnv = .timedOut :=
  (tracker_timeout_spec "p1" runningEnv (fun _ => rfl)
    (fun _ => ⟨{ id := "p1", status := .running, exit_code := none }, rfl, rfl⟩)).1

theorem listStartsWith_iff (pat : List Char) :
    ∀ hay, listStartsWith pat hay = true ↔ ∃ r, hay = pat ++ r := by
  induction pat with
  | nil => intro hay; simp [listStartsWith]
  | cons p ps ih =>
    intro hay
    cases hay with
    | nil => simp [listStartsWith]
    | cons c cs =>
      rw [show listStartsWith (p :: ps) (c :: cs) = (p == c && listStartsWith ps cs)
        from rfl]
      rw [Bool.and_eq_true, beq_iff_eq, ih cs]
      constructor
      · rintro ⟨rfl, r, rfl⟩
        exact ⟨r, rfl⟩
      · rintro ⟨r, h⟩
        injection h with h1 h2
        exact ⟨h1.symm, r, h2⟩

theorem listContains_iff (pat : List Char) :
    ∀ hay, listContains pat hay = true ↔ ∃ l r, hay = l ++ pat ++ r := by
  intro hay
  induction hay with
  | nil =>
    rw [show listContains pat [] = listStartsWith pat [] from rfl, listStartsWith_iff]
    constructor
    · rintro ⟨r, h⟩
      exact ⟨[], r, h⟩
    · rintro ⟨l, r, h⟩
      obtain ⟨h1, hr⟩ := List.append_eq_nil.mp h.symm
      obtain ⟨hl, hp⟩ := List.append_eq_nil.mp h1
      exact ⟨[], by rw [hp]; rfl⟩
  | cons c cs ih =>
    rw [show listContains pat (c :: cs) =
        (listStartsWith pat (c :: cs) || listContains pat cs) from rfl,
      Bool.or_eq_true, listStartsWith_iff, ih]
    constructor
    · rintro (⟨r, h⟩ | ⟨l, r, h⟩)
      · exact ⟨[], r, h⟩
      · refine ⟨c :: l, r, ?_⟩
        rw [h]
        rfl
    · rintro ⟨l, r, h⟩
      cases l with
      | nil => exact Or.inl ⟨r, h⟩
      | cons x xs =>
        right
        injection h with h1 h2
        exact ⟨xs, r, h2⟩

theorem strIncludes_iff (hay pat : String) :
    strIncludes hay pat = true ↔ SubstrOf pat hay := by
  show listContains pat.toList hay.toList = true ↔ SubstrOf pat hay
  rw [listContains_iff]
  exact Iff.rfl

theorem isBusyError_iff (e : String) :
    isBusyError e = true ↔
      (SubstrOf "running" e ∨ SubstrOf "busy" e ∨ SubstrOf "409" e ∨
        SubstrOf "conflict" e) := by
  rw [show isBusyError e =
      (strIncludes e "running" || strIncludes e "busy" || strIncludes e "409" ||
        strIncludes e "conflict") from rfl]
  simp only [Bool.or_eq_true, strIncludes_iff]
  rw [or_assoc, or_assoc]

theorem sendMessageFlow_error_eq (aq : Option Bool) (e : String)
    (qr : Except String Unit) :
    sendMessageFlow aq (.error e) qr =
      (if shouldQueue aq e then
        (match qr with
         | .ok _ => { outcome := .doneQueued, queueAttempted := true }
         | .error qe => { outcome := .failed qe, queueAttempted := true })
       else { outcome := .failed e, queueAttempted := false }) := rfl

theorem sendMessageFlow_queueAttempted (aq : Option Bool) (e : String)
    (qr : Except String Unit) :
    (sendMessageFlow aq (.error e) qr).queueAttempted = shouldQueue aq e := by
  rw [sendMessageFlow_error_eq]
  by_cases h : shouldQueue aq e = true
  · rw [if_pos h, h]
    cases qr <;> rfl
  · rw [if_neg h]
    cases hq : shouldQueue aq e with
    | true => exact absurd hq h
    | false => rfl

/-- Claim C2: on a send failure the queueing path is entered iff
`auto_queue` is not explicitly false and the stringified error contains one
of the substrings `running`, `busy`, `409`, `conflict`; concretely, a
failure containing `409 conflict` with `auto_queue` omitted queues
(DONE_QUEUED, assuming the queue call succeeds), the same failure with
`auto_queue:false` surfaces the original error, and a failure reading
`invalid request` never queues for any `auto_queue`. -/
theorem send_message_busy_queue_spec :
    (∀ (aq : Option Bool) (e : String) (qr : Except String Unit),
      ((sendMessageFlow aq (.error e) qr).queueAttempted = true ↔
        (aq ≠ some false ∧ (SubstrOf "running" e ∨ SubstrOf "busy" e ∨
          SubstrOf "409" e ∨ SubstrOf "conflict" e))))
    ∧ sendMessageFlow none (.error "API error: 409 conflict") (.ok ()) =
        { outcome := .doneQueued, queueAttempted := true }
    ∧ (∀ qr : Except String Unit,
        sendMessageFlow (some false) (.error "API error: 409 conflict") qr =
          { outcome := .failed "API error: 409 conflict", queueAttempted := false })
    ∧ (∀ (aq : Option Bool) (qr : Except String Unit),
        sendMessageFlow aq (.error "invalid request") qr =
          { outcome := .failed "invalid request", queueAttempted := false }) := by
  refine ⟨?_, by decide, ?_, ?_⟩
  · intro aq e qr
    rw [sendMessageFlow_queueAttempted,
      show shouldQueue aq e = ((aq != some false) && isBusyError e) from rfl,
      Bool.and_eq_true, bne_iff_ne, isBusyError_iff]
  · intro qr
    rw [sendMessageFlow_error_eq, if_neg (by decide)]
  · intro aq qr
    have hb : isBusyError "invalid request" = false := by decide
    have hs : shouldQueue aq "invalid request" = false := by
      rw [show shouldQueue aq "invalid request" =
          ((aq != some false) && isBusyError "invalid request") from rfl,
        hb, Bool.and_false]
    rw [sendMessageFlow_error_eq, hs, if_neg Bool.false_ne_true]

/-- Claim C10: `listTasks` filters by status before applying a positive
limit; the result is the length-at-most-limit front of the filtered list,
the whole list is kept when no filter is given, the length never exceeds
the limit, every returned task matches the filter, and the relative order
of the gateway list is preserved. -/
theorem listTasks_filter_before_limit (tasks : List Task) (st : TaskStatus) (n : Nat)
    (hn : 0 < n) :
    listTasks tasks (some st) (some n) = (tasks.filter (fun t => t.status = st)).take n
    ∧ listTasks tasks none (some n) = tasks.take n
    ∧ (listTasks tasks (some st) (some n)).length ≤ n
    ∧ (∀ t ∈ listTasks tasks (some st) (some n), t.status = st)
    ∧ (listTasks tasks (some st) (some n)).Sublist tasks := by
  have hne : n ≠ 0 := Nat.pos_iff_ne_zero.mp hn
  have h1 : listTasks tasks (some st) (some n) =
      (tasks.filter (fun t => t.status = st)).take n := by
    show (if n = 0 then tasks.filter (fun t => t.status = st)
        else (tasks.filter (fun t => t.status = st)).take n) =
      (tasks.filter (fun t => t.status = st)).take n
    rw [if_neg hne]
  have h2 : listTasks tasks none (some n) = tasks.take n := by
    show (if n = 0 then tasks else tasks.take n) = tasks.take n
    rw [if_neg hne]
  refine ⟨h1, h2, ?_, ?_, ?_⟩
  · rw [h1, List.length_take]
    exact min_le_left _ _
  · intro t ht
    rw [h1] at ht
    have ht2 := List.mem_filter.mp (List.mem_of_mem_take ht)
    exact of_decide_eq_true ht2.2
  · rw [h1]
    exact (List.take_sublist n _).trans (List.filter_sublist tasks)

theorem listTasks_filter_before_limit_witness :
    listTasks [{ id := "a", status := TaskStatus.todo },
        { id := "b", status := TaskStatus.done }] (some TaskStatus.todo) (some 1) =
      (([{ id := "a", status := TaskStatus.todo },
        { id := "b", status := TaskStatus.done }] : List Task).filter
          (fun t => t.status = TaskStatus.todo)).take 1 :=
  (listTasks_filter_before_limit
    [{ id := "a", status := TaskStatus.todo }, { id := "b", status := TaskStatus.done }]
    TaskStatus.todo 1 (by decide)).1

end VibeKanban
